import Mathlib

/-!
Shallow embedding of the easy-panel server routers
(`src/server/api/routers/serviceInstance.ts` and
`src/server/api/routers/user.ts`) and proofs about them.

The relational store is modelled as lists of rows; each tRPC mutation is a
function from a database state (plus its validated input) to a new state and
an `Except` result. Timestamps are naturals, opaque ids and tokens are
strings.
-/

/-- tRPC error codes used by the two routers. -/
inductive TrpcCode where
  | UNAUTHORIZED
  | FORBIDDEN
  | NOT_FOUND
  | BAD_REQUEST
  deriving DecidableEq, Repr

/-- Errors a procedure can surface: a `TRPCError` with code and message, a
schema-validation failure thrown by `Schema.parse` on a malformed value
(such as `parse(undefined)` on an empty `returning()` result), or the
record-not-found error the ORM raises when an `update` targets no row. -/
inductive ApiError where
  | trpc (code : TrpcCode) (message : String)
  | zodParse
  | ormNotFound
  deriving DecidableEq, Repr

/-- A row of the `userInstanceAbilities` table (access-grant ledger). -/
structure UserInstanceAbility where
  userId : String
  instanceId : String
  token : String
  canUse : Bool
  updatedAt : Nat
  deriving DecidableEq, Repr

/-- A row of the `serviceInstances` table. Display metadata and the opaque
`data` payload are collapsed to single string fields; the claims only ever
inspect `id`, `data` and the timestamps. -/
structure ServiceInstance where
  id : String
  name : String
  data : String
  createdAt : Nat
  updatedAt : Nat
  deriving DecidableEq, Repr

/-- A row of the `resourceUsageLogs` table; only the `instanceId` key
matters for the deletion cascade. -/
structure ResourceUsageLog where
  instanceId : String
  payload : String
  deriving DecidableEq, Repr

/-- A row of the `users` table, as read by the drizzle-side router
(`grantToAllActiveUsers` only selects `id` filtered on `isActive`). -/
structure PanelUser where
  id : String
  isActive : Bool
  deriving DecidableEq, Repr

/-- Database state threaded through the serviceInstance router. `nextCuid`
indexes the CUID generator supply (see `createCUID`). -/
structure DbState where
  users : List PanelUser
  serviceInstances : List ServiceInstance
  userInstanceAbilities : List UserInstanceAbility
  resourceUsageLogs : List ResourceUsageLog
  nextCuid : Nat
  deriving DecidableEq, Repr

/-- Modelled from the spec: `createCUID` (`@/lib/cuid`, not under `src/`)
generates collision-resistant unique identifiers. Modelled as an injective
supply indexed by the generator counter carried in `DbState`. -/
def createCUID (n : Nat) : String :=
  String.mk (List.replicate n 'c')

/-- Embedding of `serviceInstanceRouter.verifyUserAbility`: looks up the grant row by
`(instanceId, token)`, then runs the three guards exactly as the source
does. `requestIp` and `userIp` are validated as nullable IPs by the input
schema and unused by the handler. -/
def verifyUserAbility (ledger : List UserInstanceAbility)
    (instanceId userToken : String) (requestIp userIp : Option String) :
    Except ApiError String :=
  match ledger.find? (fun a => a.instanceId == instanceId && a.token == userToken) with
  | none => .error (.trpc .UNAUTHORIZED "Invalid token")
  | some instanceToken =>
    if instanceToken.instanceId ≠ instanceId then
      .error (.trpc .UNAUTHORIZED "Invalid instanceId")
    else if instanceToken.canUse = false then
      .error (.trpc .FORBIDDEN "You are not permitted to use this instance")
    else
      .ok instanceToken.userId

/-- Embedding of `serviceInstanceRouter.delete`: one transaction deleting the grant rows
for the instance, the instance row, and (when `deleteLogs`) the usage-log
rows. The transaction is a single state transition, so no intermediate
state is observable. -/
def delete (st : DbState) (id : String) (deleteLogs : Bool) : DbState :=
  { st with
    userInstanceAbilities := st.userInstanceAbilities.filter (fun a => !(a.instanceId == id)),
    serviceInstances := st.serviceInstances.filter (fun s => !(s.id == id)),
    resourceUsageLogs :=
      if deleteLogs then st.resourceUsageLogs.filter (fun l => !(l.instanceId == id))
      else st.resourceUsageLogs }

/-- Embedding of `serviceInstanceRouter.getAllWithToken`: inner join of `serviceInstances`
with `userInstanceAbilities` on matching `instanceId`, the caller's
`userId`, and `canUse = true`; each joined row is the instance annotated
with the grant's token. -/
def getAllWithToken (st : DbState) (userId : String) : List (ServiceInstance × String) :=
  (st.serviceInstances.map (fun s =>
    (st.userInstanceAbilities.filter (fun a =>
      a.instanceId == s.id && a.userId == userId && a.canUse == true)).map
        (fun a => (s, a.token)))).flatten

/-- Validated input of `ServiceInstanceUpdateSchema`: `id` is optional in the
schema; absent fields of the partial update are `none`. -/
structure ServiceInstanceUpdateInput where
  id : Option String
  name : Option String
  data : Option String
  deriving DecidableEq, Repr

/-- The JavaScript guard `if (!input.id)`: true when `id` is absent or the
empty string (both are falsy). -/
def idMissing : Option String → Bool
  | none => true
  | some s => s.isEmpty

/-- The drizzle `set({...input, updatedAt: now})` applied to one row:
columns present in the input overwrite the row, `updatedAt` is refreshed. -/
def applyUpdate (input : ServiceInstanceUpdateInput) (now : Nat)
    (s : ServiceInstance) : ServiceInstance :=
  { s with
    name := input.name.getD s.name,
    data := input.data.getD s.data,
    updatedAt := now }

/-- Embedding of `serviceInstanceRouter.update`: BAD_REQUEST when `id` is falsy;
otherwise updates every row whose `id` matches, and parses the first
returned row — `parse(undefined)` on an empty result is a zod failure
thrown after the write already happened. -/
def update (st : DbState) (input : ServiceInstanceUpdateInput) (now : Nat) :
    DbState × Except ApiError ServiceInstance :=
  if idMissing input.id then
    (st, .error (.trpc .BAD_REQUEST "ID is required"))
  else
    let iid := input.id.getD ""
    let newInstances := st.serviceInstances.map
      (fun s => if s.id == iid then applyUpdate input now s else s)
    let st' := { st with serviceInstances := newInstances }
    match (newInstances.filter (fun s => s.id == iid)).head? with
    | none => (st', .error .zodParse)
    | some r => (st', .ok r)

/-- Embedding of `serviceInstanceRouter.updateData`: same guard and shape as `update`,
but sets only the `data` column (and `updatedAt`). -/
def updateData (st : DbState) (id : Option String) (data : Option String) (now : Nat) :
    DbState × Except ApiError ServiceInstance :=
  if idMissing id then
    (st, .error (.trpc .BAD_REQUEST "ID is required"))
  else
    let iid := id.getD ""
    let newInstances := st.serviceInstances.map
      (fun s => if s.id == iid then { s with data := data.getD s.data, updatedAt := now } else s)
    let st' := { st with serviceInstances := newInstances }
    match (newInstances.filter (fun s => s.id == iid)).head? with
    | none => (st', .error .zodParse)
    | some r => (st', .ok r)

/-- A row of the prisma `User` table as used by the user router. -/
inductive UserRole where
  | ADMIN
  | USER
  deriving DecidableEq, Repr

structure PrismaUser where
  id : String
  username : String
  hashedPassword : String
  role : UserRole
  deriving DecidableEq, Repr

/-- Outcome of `userRouter.login` together with the number of password-hash
computations the handler performed, the observable that the timing defense
is about. -/
structure LoginOutcome where
  result : Except ApiError String
  hashOps : Nat
  deriving Repr

/-- Embedding of `userRouter.login`: finds the user by username. In the source the
missing-user branch throws immediately — the dummy-hash line
(`// const _ = hashPassword(password);`) is commented out — so that branch
performs zero hash computations, while the present-user branch performs one
(`verifyPassword`). On success the session user id stands in for the issued
session cookie. -/
def login (verifyPassword : String → String → Bool) (userTable : List PrismaUser)
    (username password : String) : LoginOutcome :=
  match userTable.find? (fun u => u.username == username) with
  | none =>
    { result := .error (.trpc .UNAUTHORIZED "Wrong username or password"), hashOps := 0 }
  | some user =>
    if verifyPassword password user.hashedPassword then
      { result := .ok user.id, hashOps := 1 }
    else
      { result := .error (.trpc .UNAUTHORIZED "Wrong username or password"), hashOps := 1 }

/-- Embedding of `userRouter.changePassword`: hashes the new password, rejects a
non-admin caller targeting a foreign id with FORBIDDEN before any write,
then updates the target row (the ORM's unique `update` raises
record-not-found when the id matches no row). Returns the new table and
the procedure result. -/
def changePassword (hashPassword : String → String) (userTable : List PrismaUser)
    (callerRole : UserRole) (callerId : String) (inputId inputPassword : String) :
    List PrismaUser × Except ApiError PrismaUser :=
  let hashed := hashPassword inputPassword
  if callerRole ≠ UserRole.ADMIN ∧ inputId ≠ callerId then
    (userTable, .error (.trpc .FORBIDDEN "You can only change your own password"))
  else
    match userTable.find? (fun u => u.id == inputId) with
    | none => (userTable, .error .ormNotFound)
    | some u =>
      (userTable.map (fun v => if v.id == inputId then { v with hashedPassword := hashed } else v),
        .ok { u with hashedPassword := hashed })

/-- The `onConflictDoUpdate` conflict target: one row per
`(userId, instanceId)` pair. -/
def pairMatches (uid iid : String) (a : UserInstanceAbility) : Bool :=
  a.userId == uid && a.instanceId == iid

/-- One iteration of the `grantToAllActiveUsers` loop: insert a grant row
with a fresh token, or — on conflict on `(userId, instanceId)` — set
`canUse := true` and refresh `updatedAt`, leaving the token alone. -/
def upsertAbility (instanceId : String) (now : Nat) (st : DbState) (uid : String) : DbState :=
  if st.userInstanceAbilities.any (pairMatches uid instanceId) then
    { st with
      userInstanceAbilities := st.userInstanceAbilities.map (fun a =>
        if pairMatches uid instanceId a then { a with canUse := true, updatedAt := now }
        else a) }
  else
    { st with
      userInstanceAbilities := st.userInstanceAbilities ++
        [{ userId := uid, instanceId := instanceId, token := createCUID st.nextCuid,
           canUse := true, updatedAt := now }],
      nextCuid := st.nextCuid + 1 }

/-- Embedding of `serviceInstanceRouter.grantToAllActiveUsers`: select the ids of all
active users, then upsert a grant row for each inside one transaction. -/
def grantToAllActiveUsers (st : DbState) (instanceId : String) (now : Nat) : DbState :=
  let userIds := (st.users.filter (fun u => u.isActive == true)).map (fun u => u.id)
  userIds.foldl (upsertAbility instanceId now) st

/-- Number of ledger rows for a given `(userId, instanceId)` pair. -/
def pairCount (l : List UserInstanceAbility) (uid iid : String) : Nat :=
  l.countP (pairMatches uid iid)

/-- The store's unique index on `(userId, instanceId)`. -/
def pairUnique (l : List UserInstanceAbility) : Prop :=
  ∀ uid iid, pairCount l uid iid ≤ 1

/-- Generator invariant: every token in the ledger was produced by the CUID
supply below the current counter. -/
def tokenOk (l : List UserInstanceAbility) (n : Nat) : Prop :=
  ∀ a ∈ l, ∃ k, k < n ∧ a.token = createCUID k

/-- Every `(userId, instanceId, token)` triple of the first ledger survives
into the second: rows keep their token. -/
def tokensKept (l l2 : List UserInstanceAbility) : Prop :=
  ∀ a ∈ l, ∃ b ∈ l2, b.userId = a.userId ∧ b.instanceId = a.instanceId ∧ b.token = a.token

theorem createCUID_injective : Function.Injective createCUID := by
  intro a b h
  have h2 : (List.replicate a 'c').length = (List.replicate b 'c').length := by
    have := congrArg String.data h
    simpa [createCUID] using this
  simpa using h2

theorem verify_find_instanceId (ledger : List UserInstanceAbility) (iid tok : String)
    (b : UserInstanceAbility)
    (h : ledger.find? (fun a => a.instanceId == iid && a.token == tok) = some b) :
    b.instanceId = iid ∧ b.token = tok := by
  have hp := List.find?_some h
  simp only [Bool.and_eq_true, beq_iff_eq] at hp
  exact hp

theorem verify_find_mem (ledger : List UserInstanceAbility) (iid tok : String)
    (b : UserInstanceAbility)
    (h : ledger.find? (fun a => a.instanceId == iid && a.token == tok) = some b) :
    b ∈ ledger :=
  List.mem_of_find?_eq_some h

/-- With all tokens in the ledger distinct, a row matching `(iid, tok)` is
the row `find?` returns. -/
theorem verify_find_unique (ledger : List UserInstanceAbility) (iid tok : String)
    (a : UserInstanceAbility) (hmem : a ∈ ledger) (hiid : a.instanceId = iid)
    (htok : a.token = tok)
    (hnodup : (ledger.map UserInstanceAbility.token).Nodup) :
    ledger.find? (fun x => x.instanceId == iid && x.token == tok) = some a := by
  cases hfind : ledger.find? (fun x => x.instanceId == iid && x.token == tok) with
  | none =>
    have := List.find?_eq_none.mp hfind a hmem
    simp [hiid, htok] at this
  | some b =>
    have hb := verify_find_instanceId ledger iid tok b hfind
    have hbmem := verify_find_mem ledger iid tok b hfind
    have hinj := List.inj_on_of_nodup_map hnodup
    have : b = a := hinj hbmem hmem (by rw [hb.2, htok])
    rw [this]

/-- C1: for every ledger row matching the `(instanceId, token)` inputs with
`canUse = true`, `verifyUserAbility` succeeds and returns exactly that row's
`userId` (under the store's unique-token constraint on the ledger). -/
theorem verifyUserAbility_returns_grant_userId (ledger : List UserInstanceAbility)
    (iid tok : String) (rip uip : Option String) (a : UserInstanceAbility)
    (hmem : a ∈ ledger) (hiid : a.instanceId = iid) (htok : a.token = tok)
    (hcan : a.canUse = true)
    (hnodup : (ledger.map UserInstanceAbility.token).Nodup) :
    verifyUserAbility ledger iid tok rip uip = .ok a.userId := by
  unfold verifyUserAbility
  rw [verify_find_unique ledger iid tok a hmem hiid htok hnodup]
  simp [hiid, hcan]

theorem verifyUserAbility_returns_grant_userId_witness :
    verifyUserAbility
      [{ userId := "u1", instanceId := "i1", token := "t1", canUse := true, updatedAt := 0 }]
      "i1" "t1" none none = .ok "u1" :=
  verifyUserAbility_returns_grant_userId
    [{ userId := "u1", instanceId := "i1", token := "t1", canUse := true, updatedAt := 0 }]
    "i1" "t1" none none
    { userId := "u1", instanceId := "i1", token := "t1", canUse := true, updatedAt := 0 }
    (by simp) rfl rfl rfl (by simp)

/-- C2: `verifyUserAbility` fails UNAUTHORIZED exactly when no ledger row
matches the `(instanceId, token)` pair, and fails FORBIDDEN when a matching
row exists whose `canUse` is false (under the unique-token constraint). -/
theorem verifyUserAbility_error_classification (ledger : List UserInstanceAbility)
    (iid tok : String) (rip uip : Option String)
    (hnodup : (ledger.map UserInstanceAbility.token).Nodup) :
    ((∃ msg, verifyUserAbility ledger iid tok rip uip = .error (.trpc .UNAUTHORIZED msg))
      ↔ ∀ a ∈ ledger, ¬(a.instanceId = iid ∧ a.token = tok)) ∧
    (∀ a ∈ ledger, a.instanceId = iid → a.token = tok → a.canUse = false →
      verifyUserAbility ledger iid tok rip uip =
        .error (.trpc .FORBIDDEN "You are not permitted to use this instance")) := by
  constructor
  · constructor
    · rintro ⟨msg, hmsg⟩ a hmem ⟨hiid, htok⟩
      rw [verifyUserAbility, verify_find_unique ledger iid tok a hmem hiid htok hnodup] at hmsg
      by_cases hcan : a.canUse = true <;> simp [hiid, hcan] at hmsg
    · intro hno
      have hfind : ledger.find? (fun a => a.instanceId == iid && a.token == tok) = none := by
        rw [List.find?_eq_none]
        intro a hmem
        have := hno a hmem
        simp only [Bool.and_eq_true, beq_iff_eq]
        tauto
      exact ⟨"Invalid token", by rw [verifyUserAbility, hfind]⟩
  · intro a hmem hiid htok hcan
    rw [verifyUserAbility, verify_find_unique ledger iid tok a hmem hiid htok hnodup]
    simp [hiid, hcan]

theorem verifyUserAbility_error_classification_witness :
    verifyUserAbility
      [{ userId := "u1", instanceId := "i1", token := "t1", canUse := false, updatedAt := 0 }]
      "i1" "t1" none none =
      .error (.trpc .FORBIDDEN "You are not permitted to use this instance") :=
  (verifyUserAbility_error_classification
      [{ userId := "u1", instanceId := "i1", token := "t1", canUse := false, updatedAt := 0 }]
      "i1" "t1" none none (by simp)).2
    { userId := "u1", instanceId := "i1", token := "t1", canUse := false, updatedAt := 0 }
    (by simp) rfl rfl rfl

/-- C9: the second UNAUTHORIZED guard in `verifyUserAbility` is unreachable:
any row returned by the lookup predicate already has `instanceId` equal to
the input, so the "Invalid instanceId" error is never produced, for any
ledger and any input. -/
theorem verifyUserAbility_defensive_guard_unreachable (ledger : List UserInstanceAbility)
    (iid tok : String) (rip uip : Option String) :
    (∀ b, ledger.find? (fun a => a.instanceId == iid && a.token == tok) = some b →
      b.instanceId = iid) ∧
    verifyUserAbility ledger iid tok rip uip ≠ .error (.trpc .UNAUTHORIZED "Invalid instanceId") := by
  refine ⟨fun b hb => (verify_find_instanceId ledger iid tok b hb).1, ?_⟩
  unfold verifyUserAbility
  cases hfind : ledger.find? (fun a => a.instanceId == iid && a.token == tok) with
  | none => simp
  | some b =>
    have hb := (verify_find_instanceId ledger iid tok b hfind).1
    by_cases hcan : b.canUse = true <;> simp [hb, hcan]

theorem verifyUserAbility_defensive_guard_unreachable_witness :
    verifyUserAbility
      [{ userId := "u1", instanceId := "i1", token := "t1", canUse := true, updatedAt := 0 }]
      "i1" "t1" none none ≠ .error (.trpc .UNAUTHORIZED "Invalid instanceId") :=
  (verifyUserAbility_defensive_guard_unreachable
      [{ userId := "u1", instanceId := "i1", token := "t1", canUse := true, updatedAt := 0 }]
      "i1" "t1" none none).2

/-- C5: after `delete(id, deleteLogs)` no grant row and no instance row
references `id`; with `deleteLogs = true` no usage-log row references `id`,
with `deleteLogs = false` the usage logs are exactly unchanged; the whole
deletion is one atomic state transition, and the user table is untouched. -/
theorem delete_cascade_spec (st : DbState) (id : String) (deleteLogs : Bool) :
    (∀ a ∈ (delete st id deleteLogs).userInstanceAbilities, a.instanceId ≠ id) ∧
    (∀ s ∈ (delete st id deleteLogs).serviceInstances, s.id ≠ id) ∧
    (deleteLogs = true →
      ∀ l ∈ (delete st id deleteLogs).resourceUsageLogs, l.instanceId ≠ id) ∧
    (deleteLogs = false →
      (delete st id deleteLogs).resourceUsageLogs = st.resourceUsageLogs) ∧
    (delete st id deleteLogs).users = st.users := by
  refine ⟨?_, ?_, ?_, ?_, rfl⟩
  · intro a ha
    have := (List.mem_filter.mp ha).2
    simpa using this
  · intro s hs
    have := (List.mem_filter.mp hs).2
    simpa using this
  · intro hd l hl
    rw [delete] at hl
    simp only [hd, if_true] at hl
    have := (List.mem_filter.mp hl).2
    simpa using this
  · intro hd
    simp [delete, hd]

theorem delete_cascade_spec_witness :
    (∀ l ∈ (delete ⟨[], [], [], [⟨"i1", "p"⟩], 0⟩ "i1" true).resourceUsageLogs,
      l.instanceId ≠ "i1") ∧
    (delete ⟨[], [], [], [⟨"i1", "p"⟩], 0⟩ "i1" false).resourceUsageLogs = [⟨"i1", "p"⟩] :=
  ⟨(delete_cascade_spec ⟨[], [], [], [⟨"i1", "p"⟩], 0⟩ "i1" true).2.2.1 rfl,
   (delete_cascade_spec ⟨[], [], [], [⟨"i1", "p"⟩], 0⟩ "i1" false).2.2.2.1 rfl⟩

/-- C6: `getAllWithToken` returns exactly the instances for which the caller
holds a grant row with `canUse = true`, annotated with that row's token;
instances with no grant row for the caller, or only rows with
`canUse = false`, do not appear. -/
theorem getAllWithToken_spec (st : DbState) (uid : String) (s : ServiceInstance)
    (tok : String) :
    ((s, tok) ∈ getAllWithToken st uid ↔
      s ∈ st.serviceInstances ∧ ∃ a ∈ st.userInstanceAbilities,
        a.instanceId = s.id ∧ a.userId = uid ∧ a.canUse = true ∧ a.token = tok) ∧
    ((∀ a ∈ st.userInstanceAbilities, a.userId = uid → a.instanceId = s.id →
        a.canUse = false) →
      ∀ t, (s, t) ∉ getAllWithToken st uid) := by
  have key : ∀ t, (s, t) ∈ getAllWithToken st uid ↔
      s ∈ st.serviceInstances ∧ ∃ a ∈ st.userInstanceAbilities,
        a.instanceId = s.id ∧ a.userId = uid ∧ a.canUse = true ∧ a.token = t := by
    intro t
    constructor
    · intro h
      rw [getAllWithToken, List.mem_flatten] at h
      obtain ⟨L, hL, hmem⟩ := h
      rw [List.mem_map] at hL
      obtain ⟨s', hs', rfl⟩ := hL
      rw [List.mem_map] at hmem
      obtain ⟨a, haf, heq⟩ := hmem
      rw [List.mem_filter] at haf
      obtain ⟨hamem, hcond⟩ := haf
      simp only [Bool.and_eq_true, beq_iff_eq] at hcond
      obtain ⟨⟨h1, h2⟩, h3⟩ := hcond
      injection heq with heqs heqt
      subst heqs
      exact ⟨hs', a, hamem, h1, h2, h3, heqt⟩
    · rintro ⟨hs, a, hamem, haiid, hauid, hacan, htok⟩
      rw [getAllWithToken, List.mem_flatten]
      refine ⟨_, List.mem_map.mpr ⟨s, hs, rfl⟩, ?_⟩
      rw [List.mem_map]
      refine ⟨a, ?_, by rw [htok]⟩
      rw [List.mem_filter]
      exact ⟨hamem, by simp [haiid, hauid, hacan]⟩
  refine ⟨key tok, ?_⟩
  intro hall t hmem
  obtain ⟨_, a, hamem, haiid, hauid, hacan, _⟩ := (key t).mp hmem
  have := hall a hamem hauid haiid
  rw [this] at hacan
  exact Bool.false_ne_true hacan

theorem getAllWithToken_spec_witness :
    ∀ t, (ServiceInstance.mk "i1" "n" "d" 0 0, t) ∉
      getAllWithToken ⟨[], [⟨"i1", "n", "d", 0, 0⟩],
        [⟨"u1", "i1", "t1", false, 0⟩], [], 0⟩ "u1" :=
  (getAllWithToken_spec ⟨[], [⟨"i1", "n", "d", 0, 0⟩], [⟨"u1", "i1", "t1", false, 0⟩], [], 0⟩
      "u1" ⟨"i1", "n", "d", 0, 0⟩ "t1").2
    (by intro a ha _ _; simp at ha; rw [ha])

/-- C8: `update` and `updateData` without an `id` field fail BAD_REQUEST and
leave the database state exactly unchanged. -/
theorem update_missing_id_bad_request (st : DbState) (name data : Option String)
    (now : Nat) :
    update st { id := none, name := name, data := data } now =
      (st, .error (.trpc .BAD_REQUEST "ID is required")) ∧
    updateData st none data now = (st, .error (.trpc .BAD_REQUEST "ID is required")) :=
  ⟨rfl, rfl⟩

theorem map_eq_self_of_fix {α : Type} (l : List α) (f : α → α)
    (h : ∀ a ∈ l, f a = a) : l.map f = l := by
  induction l with
  | nil => rfl
  | cons x xs ih =>
    rw [List.map_cons, h x (List.mem_cons_self x xs),
      ih (fun a ha => h a (List.mem_cons_of_mem x ha))]

/-- C10: `update` and `updateData` on a non-empty `id` that matches no
instance row do not fail NOT_FOUND or BAD_REQUEST: no row changes, the
update's `returning()` is empty, and the procedure surfaces the
schema-validation error from parsing its undefined first element. -/
theorem update_unknown_id_zod_error (st : DbState) (iid : String)
    (name data : Option String) (now : Nat) (hne : iid ≠ "")
    (habs : ∀ s ∈ st.serviceInstances, s.id ≠ iid) :
    update st { id := some iid, name := name, data := data } now = (st, .error .zodParse) ∧
    updateData st (some iid) data now = (st, .error .zodParse) := by
  have hmiss : idMissing (some iid) = false := by
    rw [idMissing]
    exact Bool.eq_false_iff.mpr (fun h => hne ((String.isEmpty_iff (s := iid)).mp h))
  have hfix : ∀ f : ServiceInstance → ServiceInstance,
      st.serviceInstances.map (fun s => if s.id == iid then f s else s) =
        st.serviceInstances := by
    intro f
    apply map_eq_self_of_fix
    intro s hs
    simp [habs s hs]
  have hfilter : st.serviceInstances.filter (fun s => s.id == iid) = [] := by
    rw [List.filter_eq_nil_iff]
    intro s hs
    simp [habs s hs]
  constructor
  · simp only [update, hmiss, Bool.false_eq_true, if_false, Option.getD_some, hfix, hfilter,
      List.head?_nil]
  · simp only [updateData, hmiss, Bool.false_eq_true, if_false, Option.getD_some, hfix, hfilter,
      List.head?_nil]

theorem update_unknown_id_zod_error_witness :
    update ⟨[], [⟨"other", "n", "d", 0, 0⟩], [], [], 0⟩
        { id := some "i1", name := none, data := none } 5 =
      (⟨[], [⟨"other", "n", "d", 0, 0⟩], [], [], 0⟩, .error .zodParse) ∧
    updateData ⟨[], [⟨"other", "n", "d", 0, 0⟩], [], [], 0⟩ (some "i1") none 5 =
      (⟨[], [⟨"other", "n", "d", 0, 0⟩], [], [], 0⟩, .error .zodParse) :=
  update_unknown_id_zod_error ⟨[], [⟨"other", "n", "d", 0, 0⟩], [], [], 0⟩ "i1" none none 5
    (by decide) (by intro s hs; simp at hs; rw [hs]; decide)

/-- C4 (divergence evidence): with a user table containing only "alice",
logging in as the absent "ghost" performs zero hash computations, while
logging in as "alice" with a wrong password performs one — the two failure
paths are not timing-equalized, though both do return the same
UNAUTHORIZED message. -/
theorem login_missing_user_skips_dummy_hash :
    (login (fun p h => p == h) [⟨"u1", "alice", "H", .USER⟩] "ghost" "pw").hashOps = 0 ∧
    (login (fun p h => p == h) [⟨"u1", "alice", "H", .USER⟩] "alice" "pw").hashOps = 1 ∧
    (login (fun p h => p == h) [⟨"u1", "alice", "H", .USER⟩] "ghost" "pw").result =
      .error (.trpc .UNAUTHORIZED "Wrong username or password") ∧
    (login (fun p h => p == h) [⟨"u1", "alice", "H", .USER⟩] "alice" "pw").result =
      .error (.trpc .UNAUTHORIZED "Wrong username or password") := by
  exact ⟨rfl, rfl, rfl, rfl⟩

/-- C7: a non-admin caller with a foreign target id gets FORBIDDEN and the
user table is exactly unchanged; the row's own user, or an admin, succeeds
when the target row exists, and then the returned row and every stored row
with that id carry the hash of the new password — which differs from the
plaintext whenever the hash function avoids fixed points at it. -/
theorem changePassword_spec (hash : String → String) (userTable : List PrismaUser)
    (callerRole : UserRole) (callerId inputId pw : String) :
    (callerRole ≠ UserRole.ADMIN → inputId ≠ callerId →
      changePassword hash userTable callerRole callerId inputId pw =
        (userTable, .error (.trpc .FORBIDDEN "You can only change your own password"))) ∧
    ((callerRole = UserRole.ADMIN ∨ inputId = callerId) →
      (∃ u ∈ userTable, u.id = inputId) →
      (∃ r, (changePassword hash userTable callerRole callerId inputId pw).2 = .ok r ∧
        r.hashedPassword = hash pw) ∧
      (∀ v ∈ (changePassword hash userTable callerRole callerId inputId pw).1,
        v.id = inputId → v.hashedPassword = hash pw) ∧
      (hash pw ≠ pw →
        ∀ v ∈ (changePassword hash userTable callerRole callerId inputId pw).1,
          v.id = inputId → v.hashedPassword ≠ pw)) := by
  constructor
  · intro hrole hid
    rw [changePassword]
    simp [hrole, hid]
  · intro hauth ⟨u, humem, huid⟩
    have hcond : ¬(callerRole ≠ UserRole.ADMIN ∧ inputId ≠ callerId) := by
      rcases hauth with h | h
      · exact fun hc => hc.1 h
      · exact fun hc => hc.2 h
    have hfind : (userTable.find? (fun v => v.id == inputId)).isSome := by
      rw [List.find?_isSome]
      exact ⟨u, humem, by simp [huid]⟩
    obtain ⟨w, hw⟩ := Option.isSome_iff_exists.mp hfind
    have hres : changePassword hash userTable callerRole callerId inputId pw =
        (userTable.map (fun v => if v.id == inputId then { v with hashedPassword := hash pw } else v),
          .ok { w with hashedPassword := hash pw }) := by
      rw [changePassword]
      simp only [if_neg hcond, hw]
    have hrows : ∀ v ∈ (changePassword hash userTable callerRole callerId inputId pw).1,
        v.id = inputId → v.hashedPassword = hash pw := by
      rw [hres]
      intro v hv hvid
      obtain ⟨v0, hv0, heq⟩ := List.mem_map.mp hv
      by_cases h0 : v0.id = inputId
      · rw [if_pos (by simp [h0])] at heq
        rw [← heq]
      · rw [if_neg (by simp [h0])] at heq
        rw [← heq] at hvid
        exact absurd hvid h0
    refine ⟨⟨{ w with hashedPassword := hash pw }, by rw [hres], rfl⟩, hrows, ?_⟩
    intro hfp v hv hvid
    rw [hrows v hv hvid]
    exact hfp

theorem changePassword_spec_witness :
    changePassword (fun s => "#" ++ s) [⟨"u1", "a", "old", .USER⟩] .USER "u2" "u1" "pw" =
      ([⟨"u1", "a", "old", .USER⟩],
        .error (.trpc .FORBIDDEN "You can only change your own password")) ∧
    (∃ r, (changePassword (fun s => "#" ++ s) [⟨"u1", "a", "old", .USER⟩] .USER "u1" "u1"
        "pw").2 = .ok r ∧ r.hashedPassword = "#pw") :=
  ⟨(changePassword_spec (fun s => "#" ++ s) [⟨"u1", "a", "old", .USER⟩] .USER "u2" "u1" "pw").1
      (by decide) (by decide),
   (((changePassword_spec (fun s => "#" ++ s) [⟨"u1", "a", "old", .USER⟩] .USER "u1" "u1"
        "pw").2 (Or.inr rfl) ⟨⟨"u1", "a", "old", .USER⟩, by simp, rfl⟩).1)⟩

theorem tokensKept_refl (l : List UserInstanceAbility) : tokensKept l l :=
  fun a ha => ⟨a, ha, rfl, rfl, rfl⟩

theorem tokensKept_trans (l1 l2 l3 : List UserInstanceAbility)
    (h12 : tokensKept l1 l2) (h23 : tokensKept l2 l3) : tokensKept l1 l3 := by
  intro a ha
  obtain ⟨b, hb, hb1, hb2, hb3⟩ := h12 a ha
  obtain ⟨c, hc, hc1, hc2, hc3⟩ := h23 b hb
  exact ⟨c, hc, hc1.trans hb1, hc2.trans hb2, hc3.trans hb3⟩

theorem map_congr_fun {α β : Type} (l : List α) (f g : α → β)
    (h : ∀ a ∈ l, f a = g a) : l.map f = l.map g := by
  induction l with
  | nil => rfl
  | cons x xs ih =>
    rw [List.map_cons, List.map_cons, h x (List.mem_cons_self x xs),
      ih (fun a ha => h a (List.mem_cons_of_mem x ha))]

theorem update_fields (uid iid : String) (now : Nat) (a : UserInstanceAbility) :
    (if pairMatches uid iid a then { a with canUse := true, updatedAt := now }
      else a).userId = a.userId ∧
    (if pairMatches uid iid a then { a with canUse := true, updatedAt := now }
      else a).instanceId = a.instanceId ∧
    (if pairMatches uid iid a then { a with canUse := true, updatedAt := now }
      else a).token = a.token := by
  by_cases h : pairMatches uid iid a = true
  · rw [if_pos h]; exact ⟨rfl, rfl, rfl⟩
  · rw [if_neg h]; exact ⟨rfl, rfl, rfl⟩

theorem pairMatches_update (uid iid v j : String) (now : Nat) (a : UserInstanceAbility) :
    pairMatches v j (if pairMatches uid iid a then { a with canUse := true, updatedAt := now }
      else a) = pairMatches v j a := by
  by_cases h : pairMatches uid iid a = true
  · rw [if_pos h]; rfl
  · rw [if_neg h]

theorem pairCount_map_update (l : List UserInstanceAbility) (uid iid v j : String)
    (now : Nat) :
    pairCount (l.map (fun a =>
      if pairMatches uid iid a then { a with canUse := true, updatedAt := now } else a)) v j =
      pairCount l v j := by
  rw [pairCount, List.countP_map, pairCount]
  apply List.countP_congr
  intro a ha
  have h := pairMatches_update uid iid v j now a
  simp only [Function.comp_apply, h]

theorem upsertAbility_step (iid : String) (now : Nat) (st : DbState) (uid : String)
    (hu : pairUnique st.userInstanceAbilities)
    (ht : tokenOk st.userInstanceAbilities st.nextCuid) :
    pairUnique (upsertAbility iid now st uid).userInstanceAbilities ∧
    tokenOk (upsertAbility iid now st uid).userInstanceAbilities
      (upsertAbility iid now st uid).nextCuid ∧
    tokensKept st.userInstanceAbilities (upsertAbility iid now st uid).userInstanceAbilities ∧
    pairCount (upsertAbility iid now st uid).userInstanceAbilities uid iid = 1 ∧
    (∀ a ∈ (upsertAbility iid now st uid).userInstanceAbilities,
      pairMatches uid iid a = true → a.canUse = true) ∧
    (∀ v j, ¬(v = uid ∧ j = iid) →
      pairCount (upsertAbility iid now st uid).userInstanceAbilities v j =
        pairCount st.userInstanceAbilities v j) ∧
    (∀ a ∈ (upsertAbility iid now st uid).userInstanceAbilities,
      a.canUse = true ∨ a ∈ st.userInstanceAbilities) ∧
    ((st.userInstanceAbilities.map UserInstanceAbility.token).Nodup →
      ((upsertAbility iid now st uid).userInstanceAbilities.map
        UserInstanceAbility.token).Nodup) ∧
    (upsertAbility iid now st uid).users = st.users := by
  by_cases hany : st.userInstanceAbilities.any (pairMatches uid iid) = true
  · -- conflict branch: an existing row is updated in place
    have hab : (upsertAbility iid now st uid).userInstanceAbilities =
        st.userInstanceAbilities.map (fun a =>
          if pairMatches uid iid a then { a with canUse := true, updatedAt := now } else a) := by
      rw [upsertAbility, if_pos hany]
    have hnc : (upsertAbility iid now st uid).nextCuid = st.nextCuid := by
      rw [upsertAbility, if_pos hany]
    have husers : (upsertAbility iid now st uid).users = st.users := by
      rw [upsertAbility, if_pos hany]
    have hcnt : ∀ v j, pairCount (upsertAbility iid now st uid).userInstanceAbilities v j =
        pairCount st.userInstanceAbilities v j := by
      intro v j
      rw [hab]
      exact pairCount_map_update st.userInstanceAbilities uid iid v j now
    refine ⟨?_, ?_, ?_, ?_, ?_, ?_, ?_, ?_, husers⟩
    · intro v j
      rw [hcnt]
      exact hu v j
    · rw [hab, hnc]
      intro a' ha'
      obtain ⟨a, ha, rfl⟩ := List.mem_map.mp ha'
      rw [(update_fields uid iid now a).2.2]
      exact ht a ha
    · rw [hab]
      intro a ha
      refine ⟨_, List.mem_map_of_mem _ ha, ?_, ?_, ?_⟩
      · exact (update_fields uid iid now a).1
      · exact (update_fields uid iid now a).2.1
      · exact (update_fields uid iid now a).2.2
    · rw [hcnt]
      have hpos : 0 < pairCount st.userInstanceAbilities uid iid := by
        rw [pairCount, List.countP_pos_iff]
        obtain ⟨a, ha, hpa⟩ := List.any_eq_true.mp hany
        exact ⟨a, ha, hpa⟩
      have := hu uid iid
      omega
    · rw [hab]
      intro a' ha' hmatch
      obtain ⟨a, ha, rfl⟩ := List.mem_map.mp ha'
      rw [pairMatches_update] at hmatch
      rw [if_pos hmatch]
    · intro v j _
      exact hcnt v j
    · rw [hab]
      intro a' ha'
      obtain ⟨a, ha, rfl⟩ := List.mem_map.mp ha'
      by_cases hm : pairMatches uid iid a = true
      · left
        rw [if_pos hm]
      · right
        rw [if_neg hm]
        exact ha
    · rw [hab]
      intro hnd
      rw [List.map_map]
      have heq : st.userInstanceAbilities.map (UserInstanceAbility.token ∘ fun a =>
          if pairMatches uid iid a then { a with canUse := true, updatedAt := now } else a) =
          st.userInstanceAbilities.map UserInstanceAbility.token := by
        apply map_congr_fun
        intro a ha
        exact (update_fields uid iid now a).2.2
      rw [heq]
      exact hnd
  · -- no conflict: a fresh row is inserted with a fresh token
    have hnone : ∀ a ∈ st.userInstanceAbilities, pairMatches uid iid a = false := by
      intro a ha
      by_contra hne
      exact hany (List.any_eq_true.mpr ⟨a, ha, Bool.eq_true_of_not_eq_false hne⟩)
    have hab : (upsertAbility iid now st uid).userInstanceAbilities =
        st.userInstanceAbilities ++ [⟨uid, iid, createCUID st.nextCuid, true, now⟩] := by
      rw [upsertAbility, if_neg hany]
    have hnc : (upsertAbility iid now st uid).nextCuid = st.nextCuid + 1 := by
      rw [upsertAbility, if_neg hany]
    have husers : (upsertAbility iid now st uid).users = st.users := by
      rw [upsertAbility, if_neg hany]
    have hzero : pairCount st.userInstanceAbilities uid iid = 0 := by
      rw [pairCount, List.countP_eq_zero]
      intro a ha
      rw [hnone a ha]
      exact Bool.false_ne_true
    have hcnt : ∀ v j, pairCount (upsertAbility iid now st uid).userInstanceAbilities v j =
        pairCount st.userInstanceAbilities v j +
          (if pairMatches v j ⟨uid, iid, createCUID st.nextCuid, true, now⟩ then 1 else 0) := by
      intro v j
      rw [hab, pairCount, List.countP_append, pairCount]
      congr 1
      by_cases hm : pairMatches v j ⟨uid, iid, createCUID st.nextCuid, true, now⟩ = true
      · rw [if_pos hm]
        simp [List.countP_cons, hm]
      · rw [if_neg hm]
        simp only [List.countP_cons, List.countP_nil]
        simp [Bool.eq_false_iff.mpr hm]
    have hnew : pairMatches uid iid ⟨uid, iid, createCUID st.nextCuid, true, now⟩ = true := by
      simp [pairMatches]
    refine ⟨?_, ?_, ?_, ?_, ?_, ?_, ?_, ?_, husers⟩
    · intro v j
      rw [hcnt]
      by_cases hm : pairMatches v j ⟨uid, iid, createCUID st.nextCuid, true, now⟩ = true
      · have hv : v = uid ∧ j = iid := by
          have := hm
          simp only [pairMatches, Bool.and_eq_true, beq_iff_eq] at this
          exact ⟨this.1.symm, this.2.symm⟩
        rw [if_pos hm, hv.1, hv.2, hzero]
      · rw [if_neg hm]
        have := hu v j
        omega
    · rw [hab, hnc]
      intro a ha
      rcases List.mem_append.mp ha with h | h
      · obtain ⟨k, hk, hk2⟩ := ht a h
        exact ⟨k, by omega, hk2⟩
      · rw [List.mem_singleton.mp h]
        exact ⟨st.nextCuid, by omega, rfl⟩
    · rw [hab]
      intro a ha
      exact ⟨a, List.mem_append_left _ ha, rfl, rfl, rfl⟩
    · rw [hcnt, if_pos hnew, hzero]
    · rw [hab]
      intro a ha hmatch
      rcases List.mem_append.mp ha with h | h
      · rw [hnone a h] at hmatch
        exact absurd hmatch Bool.false_ne_true
      · rw [List.mem_singleton.mp h]
    · intro v j hvj
      rw [hcnt]
      have hm : ¬pairMatches v j ⟨uid, iid, createCUID st.nextCuid, true, now⟩ = true := by
        intro hne
        simp only [pairMatches, Bool.and_eq_true, beq_iff_eq] at hne
        exact hvj ⟨hne.1.symm, hne.2.symm⟩
      rw [if_neg hm, Nat.add_zero]
    · rw [hab]
      intro a ha
      rcases List.mem_append.mp ha with h | h
      · right
        exact h
      · left
        rw [List.mem_singleton.mp h]
    · rw [hab]
      intro hnd
      rw [List.map_append]
      apply List.Nodup.append hnd (List.nodup_singleton _)
      intro x hx1 hx2
      rw [List.mem_singleton.mp hx2] at hx1
      obtain ⟨a, ha, hatok⟩ := List.mem_map.mp hx1
      obtain ⟨k, hk, hk2⟩ := ht a ha
      rw [hatok] at hk2
      have : st.nextCuid = k := createCUID_injective hk2
      omega

theorem foldl_upsert_spec (iid : String) (now : Nat) :
    ∀ (ids : List String) (st : DbState),
      pairUnique st.userInstanceAbilities →
      tokenOk st.userInstanceAbilities st.nextCuid →
      pairUnique (ids.foldl (upsertAbility iid now) st).userInstanceAbilities ∧
      tokenOk (ids.foldl (upsertAbility iid now) st).userInstanceAbilities
        (ids.foldl (upsertAbility iid now) st).nextCuid ∧
      tokensKept st.userInstanceAbilities
        (ids.foldl (upsertAbility iid now) st).userInstanceAbilities ∧
      (∀ uid ∈ ids,
        pairCount (ids.foldl (upsertAbility iid now) st).userInstanceAbilities uid iid = 1) ∧
      (∀ uid ∈ ids, ∀ a ∈ (ids.foldl (upsertAbility iid now) st).userInstanceAbilities,
        pairMatches uid iid a = true → a.canUse = true) ∧
      (∀ a ∈ (ids.foldl (upsertAbility iid now) st).userInstanceAbilities,
        a.canUse = true ∨ a ∈ st.userInstanceAbilities) ∧
      (∀ v j, (v ∉ ids ∨ j ≠ iid) →
        pairCount (ids.foldl (upsertAbility iid now) st).userInstanceAbilities v j =
          pairCount st.userInstanceAbilities v j) ∧
      ((st.userInstanceAbilities.map UserInstanceAbility.token).Nodup →
        ((ids.foldl (upsertAbility iid now) st).userInstanceAbilities.map
          UserInstanceAbility.token).Nodup) ∧
      (ids.foldl (upsertAbility iid now) st).users = st.users := by
  intro ids
  induction ids with
  | nil =>
    intro st hu ht
    refine ⟨hu, ht, tokensKept_refl _, ?_, ?_, ?_, ?_, fun h => h, rfl⟩
    · intro uid h
      exact absurd h (List.not_mem_nil uid)
    · intro uid h
      exact absurd h (List.not_mem_nil uid)
    · intro a ha
      right
      exact ha
    · intro v j _
      rfl
  | cons uid ids ih =>
    intro st hu ht
    rw [List.foldl_cons]
    obtain ⟨s1, s2, s3, s4, s5, s6, s7, s8, s9⟩ := upsertAbility_step iid now st uid hu ht
    obtain ⟨i1, i2, i3, i4, i5, i6, i7, i8, i9⟩ := ih (upsertAbility iid now st uid) s1 s2
    refine ⟨i1, i2, tokensKept_trans _ _ _ s3 i3, ?_, ?_, ?_, ?_, fun h => i8 (s8 h), i9.trans s9⟩
    · intro u hu2
      rcases List.mem_cons.mp hu2 with rfl | h
      · by_cases hmem : u ∈ ids
        · exact i4 u hmem
        · rw [i7 u iid (Or.inl hmem)]
          exact s4
      · exact i4 u h
    · intro u hu2 a ha hm
      rcases List.mem_cons.mp hu2 with rfl | h
      · rcases i6 a ha with hc | hmem1
        · exact hc
        · exact s5 a hmem1 hm
      · exact i5 u h a ha hm
    · intro a ha
      rcases i6 a ha with hc | h1
      · left
        exact hc
      · rcases s7 a h1 with hc | h0
        · left
          exact hc
        · right
          exact h0
    · intro v j hc
      rcases hc with hv | hj
      · have hvids : v ∉ ids := fun h => hv (List.mem_cons_of_mem _ h)
        have hvuid : v ≠ uid := fun h => hv (h ▸ List.mem_cons_self _ _)
        rw [i7 v j (Or.inl hvids), s6 v j (fun hc2 => hvuid hc2.1)]
      · rw [i7 v j (Or.inr hj), s6 v j (fun hc2 => hj hc2.2)]

/-- C3: after `grantToAllActiveUsers`, every active user holds exactly one
grant row for the instance and every such row has `canUse = true`; every
pre-existing row keeps its token (so a second run preserves all tokens of
the first); all tokens are pairwise distinct, so newly inserted rows carry
fresh unique tokens; and a user id that belongs to no active user gains no
row. Hypotheses are the store's invariants: unique `(userId, instanceId)`
pairs, generator-issued tokens, and pairwise-distinct tokens. -/
theorem grantToAllActiveUsers_spec (st : DbState) (iid : String) (now now2 : Nat)
    (hu : pairUnique st.userInstanceAbilities)
    (ht : tokenOk st.userInstanceAbilities st.nextCuid)
    (hn : (st.userInstanceAbilities.map UserInstanceAbility.token).Nodup) :
    (∀ u ∈ st.users, u.isActive = true →
      pairCount (grantToAllActiveUsers st iid now).userInstanceAbilities u.id iid = 1 ∧
      (∀ a ∈ (grantToAllActiveUsers st iid now).userInstanceAbilities,
        a.userId = u.id → a.instanceId = iid → a.canUse = true)) ∧
    tokensKept st.userInstanceAbilities
      (grantToAllActiveUsers st iid now).userInstanceAbilities ∧
    ((grantToAllActiveUsers st iid now).userInstanceAbilities.map
      UserInstanceAbility.token).Nodup ∧
    (∀ uid, (∀ u ∈ st.users, u.id = uid → u.isActive = false) →
      pairCount (grantToAllActiveUsers st iid now).userInstanceAbilities uid iid =
        pairCount st.userInstanceAbilities uid iid) ∧
    tokensKept (grantToAllActiveUsers st iid now).userInstanceAbilities
      (grantToAllActiveUsers (grantToAllActiveUsers st iid now) iid
        now2).userInstanceAbilities := by
  have hg : grantToAllActiveUsers st iid now =
      ((st.users.filter (fun u => u.isActive == true)).map (fun u => u.id)).foldl
        (upsertAbility iid now) st := rfl
  obtain ⟨f1, f2, f3, f4, f5, f6, f7, f8, f9⟩ := foldl_upsert_spec iid now
    ((st.users.filter (fun u => u.isActive == true)).map (fun u => u.id)) st hu ht
  rw [hg]
  refine ⟨?_, f3, f8 hn, ?_, ?_⟩
  · intro u hu2 hact
    have hmemid : u.id ∈ (st.users.filter (fun u => u.isActive == true)).map (fun u => u.id) :=
      List.mem_map.mpr ⟨u, List.mem_filter.mpr ⟨hu2, by rw [hact]; rfl⟩, rfl⟩
    refine ⟨f4 u.id hmemid, ?_⟩
    intro a ha h1 h2
    have hm : pairMatches u.id iid a = true := by
      rw [pairMatches, h1, h2]
      simp
    exact f5 u.id hmemid a ha hm
  · intro uid hinact
    have hnot : uid ∉ (st.users.filter (fun u => u.isActive == true)).map (fun u => u.id) := by
      intro hmem
      obtain ⟨u, huf, huid⟩ := List.mem_map.mp hmem
      obtain ⟨humem, hact⟩ := List.mem_filter.mp huf
      have hT : u.isActive = true := by simpa using hact
      have hF : u.isActive = false := hinact u humem huid
      rw [hT] at hF
      exact Bool.noConfusion hF
    exact f7 uid iid (Or.inl hnot)
  · have hg2 : grantToAllActiveUsers (grantToAllActiveUsers st iid now) iid now2 =
        (((grantToAllActiveUsers st iid now).users.filter
          (fun u => u.isActive == true)).map (fun u => u.id)).foldl
            (upsertAbility iid now2) (grantToAllActiveUsers st iid now) := rfl
    obtain ⟨g1, g2, g3, g4, g5, g6, g7, g8, g9⟩ := foldl_upsert_spec iid now2
      (((grantToAllActiveUsers st iid now).users.filter
        (fun u => u.isActive == true)).map (fun u => u.id))
      (grantToAllActiveUsers st iid now) (hg ▸ f1) (hg ▸ f2)
    rw [← hg]
    exact hg2 ▸ g3

theorem grantToAllActiveUsers_spec_witness :
    pairCount (grantToAllActiveUsers
      ⟨[⟨"u1", true⟩, ⟨"u2", false⟩], [], [], [], 0⟩ "i1" 7).userInstanceAbilities
      "u1" "i1" = 1 ∧
    pairCount (grantToAllActiveUsers
      ⟨[⟨"u1", true⟩, ⟨"u2", false⟩], [], [], [], 0⟩ "i1" 7).userInstanceAbilities
      "u2" "i1" = 0 :=
  ⟨((grantToAllActiveUsers_spec ⟨[⟨"u1", true⟩, ⟨"u2", false⟩], [], [], [], 0⟩ "i1" 7 8
      (fun _ _ => Nat.zero_le 1) (fun a ha => absurd ha (List.not_mem_nil a))
      List.nodup_nil).1 ⟨"u1", true⟩ (by simp) rfl).1,
   ((grantToAllActiveUsers_spec ⟨[⟨"u1", true⟩, ⟨"u2", false⟩], [], [], [], 0⟩ "i1" 7 8
      (fun _ _ => Nat.zero_le 1) (fun a ha => absurd ha (List.not_mem_nil a))
      List.nodup_nil).2.2.2.1 "u2" (by decide)).trans rfl⟩
